import Mathlib

/-!
Shallow embedding of `src/core/ir/model.rs` from the tailcall repository:
the IR tree model, its structural rewrite engine (`modify`, `modify_io`),
the cache-injection pass (`Cache.wrap`), the dedupe accessor (`Io.dedupe`)
and the cache-identity protocol (`cache_key`).

Modelling conventions:
* Rust `Box<T>` is erased (Lean values are already boxed); `modify_box` is
  therefore not modelled separately.
* `HashMap<String, T>` payloads (`Entity`, `Map.map`) are modelled as
  association lists `List (String × T)`; the rewrite engine transforms the
  values pointwise and never consults keys, so the ordering is irrelevant
  to every property proved here.
* Opaque payloads (backend request templates, `GroupBy`, `WorkerHooks`,
  `Auth`, `Discriminator`, `DynamicValue<Value>`) are modelled as `Nat`:
  the core treats them as immutable comparison-irrelevant blobs.
* The Rust `IO` enum is named `Io` here (`IO` is taken by Lean's monad);
  its `Js` variant is the spec's "Script" leaf operation.
* Rust closures of type `FnMut(&IR) -> Option<IR>` are modelled as pure
  functions `IR → Option IR` (the rules appearing in the specification are
  pure; statefulness plays no role in any claim).
-/

/-- Rust `std::num::NonZeroU64`: a strictly positive 64-bit freshness window. -/
abbrev NonZeroU64 := {n : Nat // 0 < n ∧ n < 2 ^ 64}

/-- Opaque backend request template for `Http` leaves. -/
abbrev HttpRequestTemplate := Nat

/-- Opaque backend request template for `GraphQL` leaves. -/
abbrev GraphQLRequestTemplate := Nat

/-- Opaque backend request template for `Grpc` leaves. -/
abbrev GrpcRequestTemplate := Nat

/-- Opaque batching group key (`config::group_by::GroupBy`). -/
abbrev GroupBy := Nat

/-- Opaque pre/post-call hook (`worker_hooks::WorkerHooks`). -/
abbrev WorkerHooks := Nat

/-- Opaque authorization requirement (`blueprint::Auth`). -/
abbrev Auth := Nat

/-- Opaque type discriminator (`discriminator::Discriminator`). -/
abbrev Discriminator := Nat

/-- Opaque structured literal (`DynamicValue<Value>`). -/
abbrev DynamicValue := Nat

/-- Rust `DataLoaderId(usize)`: an opaque index with identity only. -/
structure DataLoaderId where
  id : Nat
deriving DecidableEq, Repr

/-- Rust `IoId(u64)`: the opaque 64-bit cache identifier. -/
structure IoId where
  id : Nat
deriving DecidableEq, Repr

/-- Rust `IoId::new`. -/
def IoId.new (id : Nat) : IoId := ⟨id⟩

/-- Rust `IoId::as_u64`. -/
def IoId.as_u64 (x : IoId) : Nat := x.id

/-- The `IO` enum of `model.rs`: one backend-tagged leaf operation.
`js` is the Script-backed leaf. -/
inductive Io where
  | http (req_template : HttpRequestTemplate) (group_by : Option GroupBy)
      (dl_id : Option DataLoaderId) (is_list : Bool) (dedupe : Bool)
      (hook : Option WorkerHooks)
  | graphQL (req_template : GraphQLRequestTemplate) (field_name : String)
      (batch : Bool) (dl_id : Option DataLoaderId) (dedupe : Bool)
  | grpc (req_template : GrpcRequestTemplate) (group_by : Option GroupBy)
      (dl_id : Option DataLoaderId) (dedupe : Bool) (hook : Option WorkerHooks)
  | js (name : String)
deriving DecidableEq, Repr

/-- Rust `IO::dedupe`: the declared flag for `Http`/`GraphQL`/`Grpc`, and
unconditionally `false` for `Js` (Script). -/
def Io.dedupe : Io → Bool
  | .http _ _ _ _ d _ => d
  | .graphQL _ _ _ _ d => d
  | .grpc _ _ _ d _ => d
  | .js _ => false

/-- The `Cache` struct: a strictly positive freshness window paired with
the exclusively owned wrapped leaf operation. -/
structure Cache where
  max_age : NonZeroU64
  io : Io
deriving DecidableEq, Repr

/-- The `IR` enum of `model.rs`. The Rust `Map` struct
`{ input: Box<IR>, map: HashMap<String,String> }` is inlined into the
`map` constructor; `Entity`'s `HashMap<String, IR>` is an association
list. -/
inductive IR where
  | dynamic (value : DynamicValue)
  | io (leaf : Io)
  | cache (c : Cache)
  | path (child : IR) (fields : List String)
  | contextPath (fields : List String)
  | protect (auth : Auth) (child : IR)
  | map (input : IR) (mapping : List (String × String))
  | pipe (first second : IR)
  | merge (children : List IR)
  | discriminate (d : Discriminator) (child : IR)
  | entity (entries : List (String × IR))
  | service (sdl : String)

namespace IR

/-- Rust `IR::pipe`: sequence two trees into a `Pipe` node. -/
def pipe' (self next : IR) : IR := IR.pipe self next

/-- Rust `IR::modify_inner`: apply the rule at the current node; if it returns
a replacement take it verbatim, otherwise rebuild the node from the
recursively rewritten children.  The `Cache` arm views the wrapped leaf
as a bare `IO` node, recurses into that view (for the `IO` leaf view the
recursion is exactly `match modifier (.io c.io) with ...`, since the
declined `IO` arm is the identity), re-wraps an `IO` result with the
original window, and returns any other result directly. -/
def modify_inner (modifier : IR → Option IR) (e : IR) : IR :=
  match modifier e with
  | some expr => expr
  | none =>
    match e with
    | .pipe first second =>
        .pipe (modify_inner modifier first) (modify_inner modifier second)
    | .contextPath fs => .contextPath fs
    | .dynamic v => .dynamic v
    | .io leaf => .io leaf
    | .cache c =>
        match modify_inner modifier (.io c.io) with
        | .io leaf => .cache ⟨c.max_age, leaf⟩
        | expr => expr
    | .path child p => .path (modify_inner modifier child) p
    | .protect auth child => .protect auth (modify_inner modifier child)
    | .map input m => .map (modify_inner modifier input) m
    | .discriminate d child => .discriminate d (modify_inner modifier child)
    | .entity entries =>
        .entity (entries.attach.map fun kv => (kv.1.1, modify_inner modifier kv.1.2))
    | .service sdl => .service sdl
    | .merge children =>
        .merge (children.attach.map fun ir => modify_inner modifier ir.1)
termination_by sizeOf e
decreasing_by
  all_goals simp_wf
  all_goals try omega
  all_goals first
    | (obtain ⟨ma, leaf⟩ := c; simp <;> omega)
    | (obtain ⟨⟨k, v⟩, hm⟩ := kv; have h := List.sizeOf_lt_of_mem hm
       simp at h ⊢ <;> omega)
    | (have h := List.sizeOf_lt_of_mem ir.2; omega)

/-- Rust `IR::modify`: the public whole-tree rewrite entry point. -/
def modify (e : IR) (modifier : IR → Option IR) : IR :=
  modify_inner modifier e

/-- Rust `IR::modify_io`: apply the in-place leaf mutation rule to every leaf
operation the (intentionally partial) traversal reaches: `IO` directly,
the leaf wrapped by `Cache`, the child of `Discriminate`/`Protect`/`Path`
and of `Map`, both children of `Pipe`, every value of `Entity`.  The Rust
catch-all `_ => {}` leaves `Dynamic`, `ContextPath`, `Service` and — in
particular — `Merge` untouched.  The in-place mutation is modelled as the
pure function `f` producing the new tree. -/
def modify_io (f : Io → Io) (e : IR) : IR :=
  match e with
  | .io leaf => .io (f leaf)
  | .cache c => .cache ⟨c.max_age, f c.io⟩
  | .discriminate d child => .discriminate d (modify_io f child)
  | .protect auth child => .protect auth (modify_io f child)
  | .path child p => .path (modify_io f child) p
  | .pipe first second => .pipe (modify_io f first) (modify_io f second)
  | .entity entries =>
      .entity (entries.attach.map fun kv => (kv.1.1, modify_io f kv.1.2))
  | .map input m => .map (modify_io f input) m
  | e => e
termination_by sizeOf e
decreasing_by
  all_goals simp_wf
  all_goals try omega
  all_goals
    (obtain ⟨⟨k, v⟩, hm⟩ := kv; have h := List.sizeOf_lt_of_mem hm
     simp at h ⊢ <;> omega)

end IR

/-- Rust `Cache::wrap`: run the rewrite engine with the three-line rule that
replaces every `IO` node by a `Cache` node carrying `max_age`. -/
def Cache.wrap (max_age : NonZeroU64) (expr : IR) : IR :=
  expr.modify fun e =>
    match e with
    | .io leaf => some (.cache ⟨max_age, leaf⟩)
    | _ => none

/-- Modelled from the spec: the backend request templates
(`http::RequestTemplate`, `graphql::RequestTemplate`,
`grpc::RequestTemplate`) and their `cache_key` implementations are not
part of this repository slice.  Per §4.4, a template given an evaluation
context "computes a fingerprint from the fully-resolved request" and
"returns an identifier only if every input needed to build the request is
resolvable and the template is marked cacheable; returns absence
otherwise".  `resolve` maps a template (opaque `Nat`) and a context to
the fully resolved request when every needed input is available;
`cacheable` is the template opt-in flag; `fingerprint` is the 64-bit
fingerprint of a resolved request. -/
structure TemplateSem (Ctx : Type) where
  resolve : Nat → Ctx → Option Nat
  cacheable : Nat → Bool
  fingerprint : Nat → Nat

/-- Modelled from the spec (§4.4): a template's `cache_key` — fingerprint
of the fully resolved request, absence when the request does not resolve
or the template opted out of caching. -/
def TemplateSem.template_cache_key {Ctx : Type} (sem : TemplateSem Ctx)
    (t : Nat) (ctx : Ctx) : Option IoId :=
  match sem.resolve t ctx with
  | none => none
  | some req =>
      if sem.cacheable t then some (IoId.new (sem.fingerprint req % 2 ^ 64))
      else none

/-- Rust `impl CacheKey<EvalContext> for IO`: `Http`/`Grpc`/`GraphQL` delegate
to their request template's `cache_key`; `Js` (Script) always returns
`none`.  The external template semantics are passed explicitly, one per
backend kind. -/
def Io.cache_key {Ctx : Type} (semHttp semGql semGrpc : TemplateSem Ctx)
    (io : Io) (ctx : Ctx) : Option IoId :=
  match io with
  | .http t _ _ _ _ _ => semHttp.template_cache_key t ctx
  | .graphQL t _ _ _ _ => semGql.template_cache_key t ctx
  | .grpc t _ _ _ _ => semGrpc.template_cache_key t ctx
  | .js _ => none

namespace IR

/-- Number of `IO` nodes the rewrite engine's traversal reaches: a bare
`IO` node counts once, and a `Cache` node's wrapped leaf (visited through
the `IO` view of the `Cache` arm) counts once. -/
def reachableLeafCount (e : IR) : Nat :=
  match e with
  | .io _ => 1
  | .cache _ => 1
  | .dynamic _ => 0
  | .contextPath _ => 0
  | .service _ => 0
  | .path child _ => reachableLeafCount child
  | .protect _ child => reachableLeafCount child
  | .map input _ => reachableLeafCount input
  | .discriminate _ child => reachableLeafCount child
  | .pipe first second => reachableLeafCount first + reachableLeafCount second
  | .merge children =>
      (children.attach.map fun ir => reachableLeafCount ir.1).sum
  | .entity entries =>
      (entries.attach.map fun kv => reachableLeafCount kv.1.2).sum
termination_by sizeOf e
decreasing_by
  all_goals simp_wf
  all_goals try omega
  all_goals try (have h := List.sizeOf_lt_of_mem ir.2; omega)
  all_goals
    (obtain ⟨⟨k, v⟩, hm⟩ := kv; have h := List.sizeOf_lt_of_mem hm
     simp at h ⊢ <;> omega)

/-- Number of `Cache` nodes in a tree. -/
def cacheNodeCount (e : IR) : Nat :=
  match e with
  | .io _ => 0
  | .cache _ => 1
  | .dynamic _ => 0
  | .contextPath _ => 0
  | .service _ => 0
  | .path child _ => cacheNodeCount child
  | .protect _ child => cacheNodeCount child
  | .map input _ => cacheNodeCount input
  | .discriminate _ child => cacheNodeCount child
  | .pipe first second => cacheNodeCount first + cacheNodeCount second
  | .merge children =>
      (children.attach.map fun ir => cacheNodeCount ir.1).sum
  | .entity entries =>
      (entries.attach.map fun kv => cacheNodeCount kv.1.2).sum
termination_by sizeOf e
decreasing_by
  all_goals simp_wf
  all_goals try omega
  all_goals try (have h := List.sizeOf_lt_of_mem ir.2; omega)
  all_goals
    (obtain ⟨⟨k, v⟩, hm⟩ := kv; have h := List.sizeOf_lt_of_mem hm
     simp at h ⊢ <;> omega)

/-- Number of bare (un-cached) `IO` nodes in a tree. -/
def bareLeafCount (e : IR) : Nat :=
  match e with
  | .io _ => 1
  | .cache _ => 0
  | .dynamic _ => 0
  | .contextPath _ => 0
  | .service _ => 0
  | .path child _ => bareLeafCount child
  | .protect _ child => bareLeafCount child
  | .map input _ => bareLeafCount input
  | .discriminate _ child => bareLeafCount child
  | .pipe first second => bareLeafCount first + bareLeafCount second
  | .merge children =>
      (children.attach.map fun ir => bareLeafCount ir.1).sum
  | .entity entries =>
      (entries.attach.map fun kv => bareLeafCount kv.1.2).sum
termination_by sizeOf e
decreasing_by
  all_goals simp_wf
  all_goals try omega
  all_goals try (have h := List.sizeOf_lt_of_mem ir.2; omega)
  all_goals
    (obtain ⟨⟨k, v⟩, hm⟩ := kv; have h := List.sizeOf_lt_of_mem hm
     simp at h ⊢ <;> omega)

/-- Every `Cache` node of the tree carries the window `w`. -/
def allWindowsEq (w : NonZeroU64) (e : IR) : Bool :=
  match e with
  | .io _ => true
  | .cache c => decide (c.max_age = w)
  | .dynamic _ => true
  | .contextPath _ => true
  | .service _ => true
  | .path child _ => allWindowsEq w child
  | .protect _ child => allWindowsEq w child
  | .map input _ => allWindowsEq w input
  | .discriminate _ child => allWindowsEq w child
  | .pipe first second => allWindowsEq w first && allWindowsEq w second
  | .merge children =>
      (children.attach.map fun ir => allWindowsEq w ir.1).all id
  | .entity entries =>
      (entries.attach.map fun kv => allWindowsEq w kv.1.2).all id
termination_by sizeOf e
decreasing_by
  all_goals simp_wf
  all_goals try omega
  all_goals try (have h := List.sizeOf_lt_of_mem ir.2; omega)
  all_goals
    (obtain ⟨⟨k, v⟩, hm⟩ := kv; have h := List.sizeOf_lt_of_mem hm
     simp at h ⊢ <;> omega)

/-- Forget the caching layer: a `Cache` node becomes the bare `IO` node
it wraps, everything else is kept.  Two trees with the same erasure are
"identical in shape" up to `IO` ↔ `Cache` replacement. -/
def eraseCaching (e : IR) : IR :=
  match e with
  | .io leaf => .io leaf
  | .cache c => .io c.io
  | .dynamic v => .dynamic v
  | .contextPath fs => .contextPath fs
  | .service sdl => .service sdl
  | .path child p => .path (eraseCaching child) p
  | .protect auth child => .protect auth (eraseCaching child)
  | .map input m => .map (eraseCaching input) m
  | .discriminate d child => .discriminate d (eraseCaching child)
  | .pipe first second => .pipe (eraseCaching first) (eraseCaching second)
  | .merge children =>
      .merge (children.attach.map fun ir => eraseCaching ir.1)
  | .entity entries =>
      .entity (entries.attach.map fun kv => (kv.1.1, eraseCaching kv.1.2))
termination_by sizeOf e
decreasing_by
  all_goals simp_wf
  all_goals try omega
  all_goals try (have h := List.sizeOf_lt_of_mem ir.2; omega)
  all_goals
    (obtain ⟨⟨k, v⟩, hm⟩ := kv; have h := List.sizeOf_lt_of_mem hm
     simp at h ⊢ <;> omega)

/-- Erase every leaf-operation payload to the fixed leaf `Io.js ""`,
keeping every other payload (field lists, auth, key mappings,
discriminators, entity keys, merge children structure, SDL strings,
dynamic values, and each `Cache` window) in place.  Two trees with the
same leaf erasure agree on everything except their `IO` payloads. -/
def stripLeaves (e : IR) : IR :=
  match e with
  | .io _ => .io (.js "")
  | .cache c => .cache ⟨c.max_age, .js ""⟩
  | .dynamic v => .dynamic v
  | .contextPath fs => .contextPath fs
  | .service sdl => .service sdl
  | .path child p => .path (stripLeaves child) p
  | .protect auth child => .protect auth (stripLeaves child)
  | .map input m => .map (stripLeaves input) m
  | .discriminate d child => .discriminate d (stripLeaves child)
  | .pipe first second => .pipe (stripLeaves first) (stripLeaves second)
  | .merge children =>
      .merge (children.attach.map fun ir => stripLeaves ir.1)
  | .entity entries =>
      .entity (entries.attach.map fun kv => (kv.1.1, stripLeaves kv.1.2))
termination_by sizeOf e
decreasing_by
  all_goals simp_wf
  all_goals try omega
  all_goals try (have h := List.sizeOf_lt_of_mem ir.2; omega)
  all_goals
    (obtain ⟨⟨k, v⟩, hm⟩ := kv; have h := List.sizeOf_lt_of_mem hm
     simp at h ⊢ <;> omega)

end IR

namespace IR

/-- Strong induction on the size of an IR tree. -/
theorem ind_size {P : IR → Prop}
    (h : ∀ e, (∀ x, sizeOf x < sizeOf e → P x) → P e) : ∀ e, P e := by
  intro e
  generalize hn : sizeOf e = n
  induction n using Nat.strong_induction_on generalizing e with
  | _ n ih => subst hn; exact h e fun x hx => ih _ hx x rfl

/-- Structural induction principle for the nested inductive `IR`. -/
theorem ind_struct {P : IR → Prop}
    (hdynamic : ∀ v, P (.dynamic v))
    (hio : ∀ leaf, P (.io leaf))
    (hcache : ∀ c, P (.cache c))
    (hpath : ∀ child fs, P child → P (.path child fs))
    (hcontextPath : ∀ fs, P (.contextPath fs))
    (hprotect : ∀ a child, P child → P (.protect a child))
    (hmap : ∀ input mp, P input → P (.map input mp))
    (hpipe : ∀ a b, P a → P b → P (.pipe a b))
    (hmerge : ∀ cs, (∀ x ∈ cs, P x) → P (.merge cs))
    (hdiscriminate : ∀ d child, P child → P (.discriminate d child))
    (hentity : ∀ es, (∀ kv ∈ es, P kv.2) → P (.entity es))
    (hservice : ∀ s, P (.service s)) : ∀ e, P e := by
  refine ind_size ?_
  intro e
  match e with
  | .dynamic v => exact fun _ => hdynamic v
  | .io leaf => exact fun _ => hio leaf
  | .cache c => exact fun _ => hcache c
  | .contextPath fs => exact fun _ => hcontextPath fs
  | .service s => exact fun _ => hservice s
  | .path child fs =>
      exact fun ih => hpath child fs (ih child (by simp <;> omega))
  | .protect a child =>
      exact fun ih => hprotect a child (ih child (by simp <;> omega))
  | .map input mp =>
      exact fun ih => hmap input mp (ih input (by simp <;> omega))
  | .pipe a b =>
      exact fun ih => hpipe a b (ih a (by simp <;> omega)) (ih b (by simp <;> omega))
  | .discriminate d child =>
      exact fun ih => hdiscriminate d child (ih child (by simp <;> omega))
  | .merge cs =>
      exact fun ih => hmerge cs fun x hx =>
        ih x (by have := List.sizeOf_lt_of_mem hx; simp; omega)
  | .entity es =>
      exact fun ih => hentity es fun kv hkv =>
        ih kv.2 (by
          have h1 := List.sizeOf_lt_of_mem hkv
          have h2 : sizeOf kv.2 < sizeOf kv := by
            obtain ⟨a, b⟩ := kv; simp <;> omega
          simp
          omega)

end IR

namespace IR

/-- If the rule fires at the root, its replacement is the verbatim result. -/
theorem modify_inner_some {m : IR → Option IR} {e r : IR} (h : m e = some r) :
    modify_inner m e = r := by
  cases e <;> simp only [modify_inner] <;> rw [h]

theorem modify_inner_dynamic {m : IR → Option IR} {v : DynamicValue}
    (h : m (.dynamic v) = none) : modify_inner m (.dynamic v) = .dynamic v := by
  simp only [modify_inner] <;> rw [h]

theorem modify_inner_io_view {m : IR → Option IR} {leaf : Io}
    (h : m (.io leaf) = none) : modify_inner m (.io leaf) = .io leaf := by
  simp only [modify_inner] <;> rw [h]

theorem modify_inner_contextPath {m : IR → Option IR} {fs : List String}
    (h : m (.contextPath fs) = none) :
    modify_inner m (.contextPath fs) = .contextPath fs := by
  simp only [modify_inner] <;> rw [h]

theorem modify_inner_service {m : IR → Option IR} {s : String}
    (h : m (.service s) = none) : modify_inner m (.service s) = .service s := by
  simp only [modify_inner] <;> rw [h]

theorem modify_inner_path {m : IR → Option IR} {child : IR} {fs : List String}
    (h : m (.path child fs) = none) :
    modify_inner m (.path child fs) = .path (modify_inner m child) fs := by
  simp only [modify_inner] <;> rw [h]

theorem modify_inner_protect {m : IR → Option IR} {a : Auth} {child : IR}
    (h : m (.protect a child) = none) :
    modify_inner m (.protect a child) = .protect a (modify_inner m child) := by
  simp only [modify_inner] <;> rw [h]

theorem modify_inner_map {m : IR → Option IR} {input : IR} {mp : List (String × String)}
    (h : m (.map input mp) = none) :
    modify_inner m (.map input mp) = .map (modify_inner m input) mp := by
  simp only [modify_inner] <;> rw [h]

theorem modify_inner_pipe {m : IR → Option IR} {a b : IR}
    (h : m (.pipe a b) = none) :
    modify_inner m (.pipe a b) = .pipe (modify_inner m a) (modify_inner m b) := by
  simp only [modify_inner] <;> rw [h]

theorem modify_inner_discriminate {m : IR → Option IR} {d : Discriminator} {child : IR}
    (h : m (.discriminate d child) = none) :
    modify_inner m (.discriminate d child) =
      .discriminate d (modify_inner m child) := by
  simp only [modify_inner] <;> rw [h]

theorem modify_inner_merge {m : IR → Option IR} {cs : List IR}
    (h : m (.merge cs) = none) :
    modify_inner m (.merge cs) = .merge (cs.map (modify_inner m)) := by
  simp only [modify_inner]
  rw [h]
  simp [List.attach_map_val]

theorem modify_inner_entity {m : IR → Option IR} {es : List (String × IR)}
    (h : m (.entity es) = none) :
    modify_inner m (.entity es) =
      .entity (es.map fun kv => (kv.1, modify_inner m kv.2)) := by
  simp only [modify_inner]
  rw [h]
  rw [List.attach_map_val es fun kv => (kv.1, modify_inner m kv.2)]

theorem modify_inner_cache {m : IR → Option IR} {c : Cache}
    (h : m (.cache c) = none) :
    modify_inner m (.cache c) =
      (match modify_inner m (.io c.io) with
       | .io leaf => .cache ⟨c.max_age, leaf⟩
       | e => e) := by
  simp only [modify_inner]
  rw [h]

end IR

namespace IR

/-- Helper: `all id` after a `map`. -/
theorem all_map_id {α : Type} (f : α → Bool) (cs : List α) :
    (cs.map f).all id = cs.all f := by
  induction cs with
  | nil => rfl
  | cons x xs ih => simp_all [List.all_cons]

theorem reachableLeafCount_merge {cs : List IR} :
    reachableLeafCount (.merge cs) = (cs.map reachableLeafCount).sum := by
  simp [reachableLeafCount, List.attach_map_val]

theorem reachableLeafCount_entity {es : List (String × IR)} :
    reachableLeafCount (.entity es) =
      (es.map fun kv => reachableLeafCount kv.2).sum := by
  simp only [reachableLeafCount]
  rw [List.attach_map_val es fun kv => reachableLeafCount kv.2]

theorem cacheNodeCount_merge {cs : List IR} :
    cacheNodeCount (.merge cs) = (cs.map cacheNodeCount).sum := by
  simp [cacheNodeCount, List.attach_map_val]

theorem cacheNodeCount_entity {es : List (String × IR)} :
    cacheNodeCount (.entity es) = (es.map fun kv => cacheNodeCount kv.2).sum := by
  simp only [cacheNodeCount]
  rw [List.attach_map_val es fun kv => cacheNodeCount kv.2]

theorem bareLeafCount_merge {cs : List IR} :
    bareLeafCount (.merge cs) = (cs.map bareLeafCount).sum := by
  simp [bareLeafCount, List.attach_map_val]

theorem bareLeafCount_entity {es : List (String × IR)} :
    bareLeafCount (.entity es) = (es.map fun kv => bareLeafCount kv.2).sum := by
  simp only [bareLeafCount]
  rw [List.attach_map_val es fun kv => bareLeafCount kv.2]

theorem allWindowsEq_merge {w : NonZeroU64} {cs : List IR} :
    allWindowsEq w (.merge cs) = cs.all (allWindowsEq w) := by
  simp only [allWindowsEq]
  rw [List.attach_map_val cs (allWindowsEq w)]
  exact all_map_id _ cs

theorem allWindowsEq_entity {w : NonZeroU64} {es : List (String × IR)} :
    allWindowsEq w (.entity es) = es.all fun kv => allWindowsEq w kv.2 := by
  simp only [allWindowsEq]
  rw [List.attach_map_val es fun kv => allWindowsEq w kv.2]
  exact all_map_id _ es

theorem eraseCaching_merge {cs : List IR} :
    eraseCaching (.merge cs) = .merge (cs.map eraseCaching) := by
  simp [eraseCaching, List.attach_map_val]

theorem eraseCaching_entity {es : List (String × IR)} :
    eraseCaching (.entity es) = .entity (es.map fun kv => (kv.1, eraseCaching kv.2)) := by
  simp only [eraseCaching]
  rw [List.attach_map_val es fun kv => (kv.1, eraseCaching kv.2)]

theorem stripLeaves_merge {cs : List IR} :
    stripLeaves (.merge cs) = .merge (cs.map stripLeaves) := by
  simp [stripLeaves, List.attach_map_val]

theorem stripLeaves_entity {es : List (String × IR)} :
    stripLeaves (.entity es) = .entity (es.map fun kv => (kv.1, stripLeaves kv.2)) := by
  simp only [stripLeaves]
  rw [List.attach_map_val es fun kv => (kv.1, stripLeaves kv.2)]

theorem modify_io_entity {f : Io → Io} {es : List (String × IR)} :
    modify_io f (.entity es) = .entity (es.map fun kv => (kv.1, modify_io f kv.2)) := by
  simp only [modify_io]
  rw [List.attach_map_val es fun kv => (kv.1, modify_io f kv.2)]

end IR

namespace IR

/-- The three-line rule used by `Cache::wrap`. -/
def wrapRule (w : NonZeroU64) : IR → Option IR := fun e =>
  match e with
  | .io leaf => some (.cache ⟨w, leaf⟩)
  | _ => none

theorem wrap_eq_modify (w : NonZeroU64) (t : IR) :
    Cache.wrap w t = modify_inner (wrapRule w) t := rfl

/-- Master lemma for the cache-injection pass: counts, windows and shape
of `Cache.wrap w t`. -/
theorem wrap_spec (w : NonZeroU64) :
    ∀ t : IR,
      cacheNodeCount (Cache.wrap w t) = reachableLeafCount t ∧
      bareLeafCount (Cache.wrap w t) = 0 ∧
      allWindowsEq w (Cache.wrap w t) = true ∧
      eraseCaching (Cache.wrap w t) = eraseCaching t ∧
      reachableLeafCount (Cache.wrap w t) = reachableLeafCount t := by
  refine ind_struct ?_ ?_ ?_ ?_ ?_ ?_ ?_ ?_ ?_ ?_ ?_ ?_
  · intro v
    simp [wrap_eq_modify, modify_inner_dynamic (m := wrapRule w) rfl,
      cacheNodeCount, reachableLeafCount, bareLeafCount, allWindowsEq, eraseCaching]
  · intro leaf
    rw [wrap_eq_modify, modify_inner_some (m := wrapRule w) (e := .io leaf)
      (r := .cache ⟨w, leaf⟩) rfl]
    simp [cacheNodeCount, reachableLeafCount, bareLeafCount, allWindowsEq, eraseCaching]
  · intro c
    rw [wrap_eq_modify, modify_inner_cache (m := wrapRule w) rfl,
      modify_inner_some (m := wrapRule w) (e := .io c.io)
        (r := .cache ⟨w, c.io⟩) rfl]
    simp [cacheNodeCount, reachableLeafCount, bareLeafCount, allWindowsEq, eraseCaching]
  · intro child fs ih
    rw [wrap_eq_modify, modify_inner_path (m := wrapRule w) rfl]
    rw [wrap_eq_modify w child] at ih
    simp [cacheNodeCount, reachableLeafCount, bareLeafCount, allWindowsEq, eraseCaching, ih.1,
      ih.2.1, ih.2.2.1, ih.2.2.2.1, ih.2.2.2.2]
  · intro fs
    simp [wrap_eq_modify, modify_inner_contextPath (m := wrapRule w) rfl,
      cacheNodeCount, reachableLeafCount, bareLeafCount, allWindowsEq, eraseCaching]
  · intro a child ih
    rw [wrap_eq_modify, modify_inner_protect (m := wrapRule w) rfl]
    rw [wrap_eq_modify w child] at ih
    simp [cacheNodeCount, reachableLeafCount, bareLeafCount, allWindowsEq, eraseCaching, ih.1,
      ih.2.1, ih.2.2.1, ih.2.2.2.1, ih.2.2.2.2]
  · intro input mp ih
    rw [wrap_eq_modify, modify_inner_map (m := wrapRule w) rfl]
    rw [wrap_eq_modify w input] at ih
    simp [cacheNodeCount, reachableLeafCount, bareLeafCount, allWindowsEq, eraseCaching, ih.1,
      ih.2.1, ih.2.2.1, ih.2.2.2.1, ih.2.2.2.2]
  · intro a b iha ihb
    rw [wrap_eq_modify, modify_inner_pipe (m := wrapRule w) rfl]
    rw [wrap_eq_modify w a] at iha
    rw [wrap_eq_modify w b] at ihb
    simp [cacheNodeCount, reachableLeafCount, bareLeafCount, allWindowsEq, eraseCaching,
      iha.1, iha.2.1, iha.2.2.1, iha.2.2.2.1, iha.2.2.2.2,
      ihb.1, ihb.2.1, ihb.2.2.1, ihb.2.2.2.1, ihb.2.2.2.2]
  · intro cs ih
    rw [wrap_eq_modify, modify_inner_merge (m := wrapRule w) rfl]
    refine ⟨?_, ?_, ?_, ?_, ?_⟩
    · rw [cacheNodeCount_merge, reachableLeafCount_merge, List.map_map]
      congr 1
      refine List.map_congr_left fun x hx => ?_
      exact (ih x hx).1
    · rw [bareLeafCount_merge, List.map_map]
      have : cs.map (bareLeafCount ∘ modify_inner (wrapRule w)) = cs.map fun _ => 0 := by
        refine List.map_congr_left fun x hx => ?_
        exact (ih x hx).2.1
      rw [this]
      simp
    · rw [allWindowsEq_merge, List.all_eq_true]
      intro x hx
      simp only [List.mem_map] at hx
      obtain ⟨y, hy, rfl⟩ := hx
      exact (ih y hy).2.2.1
    · rw [eraseCaching_merge, eraseCaching_merge, List.map_map]
      congr 1
      refine List.map_congr_left fun x hx => ?_
      exact (ih x hx).2.2.2.1
    · rw [reachableLeafCount_merge, reachableLeafCount_merge, List.map_map]
      congr 1
      refine List.map_congr_left fun x hx => ?_
      exact (ih x hx).2.2.2.2
  · intro d child ih
    rw [wrap_eq_modify, modify_inner_discriminate (m := wrapRule w) rfl]
    rw [wrap_eq_modify w child] at ih
    simp [cacheNodeCount, reachableLeafCount, bareLeafCount, allWindowsEq, eraseCaching, ih.1,
      ih.2.1, ih.2.2.1, ih.2.2.2.1, ih.2.2.2.2]
  · intro es ih
    rw [wrap_eq_modify, modify_inner_entity (m := wrapRule w) rfl]
    refine ⟨?_, ?_, ?_, ?_, ?_⟩
    · rw [cacheNodeCount_entity, reachableLeafCount_entity, List.map_map]
      congr 1
      refine List.map_congr_left fun kv hkv => ?_
      exact (ih kv hkv).1
    · rw [bareLeafCount_entity, List.map_map]
      have : (es.map fun kv => bareLeafCount (modify_inner (wrapRule w) kv.2)) =
          es.map fun _ => 0 := by
        refine List.map_congr_left fun kv hkv => ?_
        exact (ih kv hkv).2.1
      rw [show ((fun kv : String × IR => bareLeafCount kv.2) ∘
          fun kv : String × IR => (kv.1, modify_inner (wrapRule w) kv.2)) =
          fun kv : String × IR => bareLeafCount (modify_inner (wrapRule w) kv.2) from rfl]
      rw [this]
      simp
    · rw [allWindowsEq_entity, List.all_eq_true]
      intro kv hkv
      simp only [List.mem_map] at hkv
      obtain ⟨y, hy, rfl⟩ := hkv
      exact (ih y hy).2.2.1
    · rw [eraseCaching_entity, eraseCaching_entity, List.map_map]
      congr 1
      refine List.map_congr_left fun kv hkv => ?_
      have h1 := (ih kv hkv).2.2.2.1
      rw [wrap_eq_modify] at h1
      simp only [Function.comp_apply]
      rw [h1]
    · rw [reachableLeafCount_entity, reachableLeafCount_entity, List.map_map]
      congr 1
      refine List.map_congr_left fun kv hkv => ?_
      exact (ih kv hkv).2.2.2.2
  · intro s
    simp [wrap_eq_modify, modify_inner_service (m := wrapRule w) rfl,
      cacheNodeCount, reachableLeafCount, bareLeafCount, allWindowsEq, eraseCaching]

end IR

namespace IR

/-- Helper for C4: a rule that always declines leaves every tree
unchanged. -/
theorem modify_inner_decline_id (m : IR → Option IR) (hm : ∀ x, m x = none) :
    ∀ t : IR, modify_inner m t = t := by
  refine ind_struct ?_ ?_ ?_ ?_ ?_ ?_ ?_ ?_ ?_ ?_ ?_ ?_
  · intro v; rw [modify_inner_dynamic (hm _)]
  · intro leaf; rw [modify_inner_io_view (hm _)]
  · intro c
    rw [modify_inner_cache (hm _), modify_inner_io_view (hm _)]
  · intro child fs ih; rw [modify_inner_path (hm _), ih]
  · intro fs; rw [modify_inner_contextPath (hm _)]
  · intro a child ih; rw [modify_inner_protect (hm _), ih]
  · intro input mp ih; rw [modify_inner_map (hm _), ih]
  · intro a b iha ihb; rw [modify_inner_pipe (hm _), iha, ihb]
  · intro cs ih
    rw [modify_inner_merge (hm _)]
    congr 1
    rw [List.map_congr_left ih]
    exact List.map_id' cs
  · intro d child ih; rw [modify_inner_discriminate (hm _), ih]
  · intro es ih
    rw [modify_inner_entity (hm _)]
    congr 1
    have h1 : (es.map fun kv => (kv.1, modify_inner m kv.2)) =
        es.map fun kv => kv := by
      refine List.map_congr_left fun kv hkv => ?_
      rw [ih kv hkv]
    rw [h1]
    exact List.map_id' es
  · intro s; rw [modify_inner_service (hm _)]

end IR

/-- Concrete strictly positive windows used by the witnesses. -/
def win1 : NonZeroU64 := ⟨1, by norm_num⟩

def win2 : NonZeroU64 := ⟨2, by norm_num⟩

namespace IR

/-- C1: `wrap(w, tree)` keeps the shape of the tree (its cache-erasure is
unchanged), produces exactly as many `Cache` nodes as the input has
reachable `IO` nodes (bare ones plus those wrapped in an existing
`Cache`), gives every `Cache` node the window `w`, and leaves no bare
`IO` node in the result. -/
theorem claim_C1 (w : NonZeroU64) (t : IR) :
    eraseCaching (Cache.wrap w t) = eraseCaching t ∧
    cacheNodeCount (Cache.wrap w t) = reachableLeafCount t ∧
    allWindowsEq w (Cache.wrap w t) = true ∧
    bareLeafCount (Cache.wrap w t) = 0 := by
  obtain ⟨h1, h2, h3, h4, _⟩ := wrap_spec w t
  exact ⟨h4, h1, h3, h2⟩

/-- C2: re-applying `wrap` with a different window yields a tree of the
same shape (same cache-erasure and the same number of `Cache` nodes) as
`wrap(w1, tree)` in which every `Cache` window equals `w2`: the
last-applied window wins. -/
theorem claim_C2 (w1 w2 : NonZeroU64) (hne : w1 ≠ w2) (t : IR) :
    eraseCaching (Cache.wrap w2 (Cache.wrap w1 t)) =
      eraseCaching (Cache.wrap w1 t) ∧
    cacheNodeCount (Cache.wrap w2 (Cache.wrap w1 t)) =
      cacheNodeCount (Cache.wrap w1 t) ∧
    allWindowsEq w2 (Cache.wrap w2 (Cache.wrap w1 t)) = true := by
  obtain ⟨h1, _, h3, h4, h5⟩ := wrap_spec w2 (Cache.wrap w1 t)
  obtain ⟨g1, _, _, _, g5⟩ := wrap_spec w1 t
  exact ⟨h4, by rw [h1, g5, g1], h3⟩

/-- C2 witness: wrapping `IO(Js "x")` with window 1 and re-wrapping with
window 2 keeps the shape and count and sets every window to 2. -/
theorem claim_C2_witness :
    win1 ≠ win2 ∧
    (eraseCaching (Cache.wrap win2 (Cache.wrap win1 (.io (.js "x")))) =
        eraseCaching (Cache.wrap win1 (.io (.js "x"))) ∧
      cacheNodeCount (Cache.wrap win2 (Cache.wrap win1 (.io (.js "x")))) =
        cacheNodeCount (Cache.wrap win1 (.io (.js "x"))) ∧
      allWindowsEq win2 (Cache.wrap win2 (Cache.wrap win1 (.io (.js "x")))) =
        true) :=
  ⟨by decide, claim_C2 win1 win2 (by decide) (.io (.js "x"))⟩

/-- C3: a declined `Cache` node is rewritten through the bare-`IO` view
of its wrapped leaf: if the recursion on that view produces an `IO` node
it is re-wrapped with the original window, and any other node kind is
returned directly, dropping the cache wrapping. -/
theorem claim_C3 (m : IR → Option IR) (c : Cache) (h : m (.cache c) = none) :
    (∀ leaf, modify_inner m (.io c.io) = .io leaf →
      modify_inner m (.cache c) = .cache ⟨c.max_age, leaf⟩) ∧
    (∀ r, modify_inner m (.io c.io) = r → (∀ leaf, r ≠ .io leaf) →
      modify_inner m (.cache c) = r) := by
  constructor
  · intro leaf hl
    rw [modify_inner_cache h, hl]
  · intro r hr hne
    rw [modify_inner_cache h, hr]
    cases r <;> first
      | rfl
      | (rename_i leaf; exact absurd rfl (hne leaf))

/-- C3 witness: with an always-declining rule the cached `Js "x"` leaf is
re-wrapped with its original window; with a rule replacing the `IO` view
by `Dynamic 7`, the cache wrapping is dropped. -/
theorem claim_C3_witness :
    modify_inner (fun _ => none) (.cache ⟨win1, .js "x"⟩) =
      .cache ⟨win1, .js "x"⟩ ∧
    modify_inner
        (fun e => match e with | .io _ => some (.dynamic 7) | _ => none)
        (.cache ⟨win1, .js "x"⟩) = .dynamic 7 :=
  ⟨(claim_C3 (fun _ => none) ⟨win1, .js "x"⟩ rfl).1 (.js "x")
      (by simp [modify_inner]),
   (claim_C3 (fun e => match e with | .io _ => some (.dynamic 7) | _ => none)
        ⟨win1, .js "x"⟩ rfl).2 (.dynamic 7) (by simp [modify_inner])
      (by intro leaf hl; cases hl)⟩

/-- C4: `modify` with a rule that always declines rebuilds the tree
unchanged — the identity law of the structural rewrite engine. -/
theorem claim_C4 (m : IR → Option IR) (hm : ∀ x, m x = none) (t : IR) :
    t.modify m = t :=
  modify_inner_decline_id m hm t

/-- C4 witness: the always-`none` rule leaves a tree exercising every
variant unchanged. -/
theorem claim_C4_witness :
    (IR.pipe
      (.merge [.io (.js "a"), .dynamic 3, .service "sdl"])
      (.entity [("T", .protect 0 (.path (.cache ⟨win1, .js "b"⟩) ["f"])),
                ("U", .map (.discriminate 1 (.contextPath ["g"])) [("x", "y")])])).modify
        (fun _ => none) =
    IR.pipe
      (.merge [.io (.js "a"), .dynamic 3, .service "sdl"])
      (.entity [("T", .protect 0 (.path (.cache ⟨win1, .js "b"⟩) ["f"])),
                ("U", .map (.discriminate 1 (.contextPath ["g"])) [("x", "y")])]) :=
  claim_C4 (fun _ => none) (fun _ => rfl) _

/-- C5: whenever the rule returns a replacement at a node, `modify` takes
the replacement verbatim as the result for that position — the
replacement's children are not re-visited. -/
theorem claim_C5 (m : IR → Option IR) (e r : IR) (h : m e = some r) :
    e.modify m = r :=
  modify_inner_some h

/-- C5 witness: a rule that replaces the root by `Pipe(IO a, IO b)` —
whose children the rule itself would also match — returns that subtree
verbatim, with no further rewriting of its children. -/
theorem claim_C5_witness :
    (IR.dynamic 0).modify
        (fun _ => some (.pipe (.io (.js "a")) (.io (.js "b")))) =
      .pipe (.io (.js "a")) (.io (.js "b")) :=
  claim_C5 _ (IR.dynamic 0) (.pipe (.io (.js "a")) (.io (.js "b"))) rfl

end IR

namespace IR

/-- C6: `modify_io` applies the mutation rule to exactly the leaf
operations reachable through `IO` directly, through the leaf wrapped by
`Cache`, through the single child of `Discriminate`, `Protect`, `Path`
and `Map`, through both children of `Pipe`, and through every value of
`Entity`; it does not descend into `Merge`'s children and touches no
leaf under `Dynamic`, `ContextPath` or `Service` — in particular a
`Merge` of two `IO` leaves is left entirely untouched. -/
theorem claim_C6 (f : Io → Io) :
    (∀ leaf, modify_io f (.io leaf) = .io (f leaf)) ∧
    (∀ w leaf, modify_io f (.cache ⟨w, leaf⟩) = .cache ⟨w, f leaf⟩) ∧
    (∀ d child, modify_io f (.discriminate d child) =
      .discriminate d (modify_io f child)) ∧
    (∀ a child, modify_io f (.protect a child) =
      .protect a (modify_io f child)) ∧
    (∀ child fs, modify_io f (.path child fs) = .path (modify_io f child) fs) ∧
    (∀ a b, modify_io f (.pipe a b) = .pipe (modify_io f a) (modify_io f b)) ∧
    (∀ es, modify_io f (.entity es) =
      .entity (es.map fun kv => (kv.1, modify_io f kv.2))) ∧
    (∀ input mp, modify_io f (.map input mp) = .map (modify_io f input) mp) ∧
    (∀ cs, modify_io f (.merge cs) = .merge cs) ∧
    (∀ v, modify_io f (.dynamic v) = .dynamic v) ∧
    (∀ fs, modify_io f (.contextPath fs) = .contextPath fs) ∧
    (∀ s, modify_io f (.service s) = .service s) ∧
    (∀ a b, modify_io f (.merge [.io a, .io b]) = .merge [.io a, .io b]) := by
  refine ⟨fun leaf => ?_, fun w leaf => ?_, fun d child => ?_,
    fun a child => ?_, fun child fs => ?_, fun a b => ?_, fun es => ?_,
    fun input mp => ?_, fun cs => ?_, fun v => ?_, fun fs => ?_,
    fun s => ?_, fun a b => ?_⟩ <;>
    first
      | exact modify_io_entity
      | simp [modify_io]

end IR

/-- C7: `dedupe()` returns the backend-declared flag for `Http`,
`GraphQL` and `Grpc` operations and is unconditionally `false` for every
`Js` (Script) operation, however constructed. -/
theorem claim_C7 :
    (∀ t gb dl il d hk, (Io.http t gb dl il d hk).dedupe = d) ∧
    (∀ t fn b dl d, (Io.graphQL t fn b dl d).dedupe = d) ∧
    (∀ t gb dl d hk, (Io.grpc t gb dl d hk).dedupe = d) ∧
    (∀ name, (Io.js name).dedupe = false) :=
  ⟨fun _ _ _ _ _ _ => rfl, fun _ _ _ _ _ => rfl, fun _ _ _ _ _ => rfl,
   fun _ => rfl⟩

/-- C8: the cache-identity protocol never faults: for every `Js`
(Script) leaf and any context the result is absence (`none`), and for
every leaf operation the result is always either absence or an
identifier — non-cacheability is expressed as absence, never as a
sentinel or an error. -/
theorem claim_C8 {Ctx : Type} (semHttp semGql semGrpc : TemplateSem Ctx) :
    (∀ name ctx, Io.cache_key semHttp semGql semGrpc (.js name) ctx = none) ∧
    (∀ io ctx, Io.cache_key semHttp semGql semGrpc io ctx = none ∨
      ∃ id, Io.cache_key semHttp semGql semGrpc io ctx = some id) := by
  refine ⟨fun _ _ => rfl, fun io ctx => ?_⟩
  cases h : Io.cache_key semHttp semGql semGrpc io ctx with
  | none => exact Or.inl rfl
  | some id => exact Or.inr ⟨id, rfl⟩

/-- C9: `cache_key` is deterministic — for each of `Http`, `GraphQL` and
`Grpc`, two contexts under which the operation's template resolves to
the same resolved input yield equal identifiers — and a leaf whose
template cannot resolve under a context yields absence. -/
theorem claim_C9 {Ctx : Type} (semHttp semGql semGrpc : TemplateSem Ctx) :
    (∀ t gb dl il d hk ctx1 ctx2,
      semHttp.resolve t ctx1 = semHttp.resolve t ctx2 →
      Io.cache_key semHttp semGql semGrpc (.http t gb dl il d hk) ctx1 =
        Io.cache_key semHttp semGql semGrpc (.http t gb dl il d hk) ctx2) ∧
    (∀ t fn b dl d ctx1 ctx2,
      semGql.resolve t ctx1 = semGql.resolve t ctx2 →
      Io.cache_key semHttp semGql semGrpc (.graphQL t fn b dl d) ctx1 =
        Io.cache_key semHttp semGql semGrpc (.graphQL t fn b dl d) ctx2) ∧
    (∀ t gb dl d hk ctx1 ctx2,
      semGrpc.resolve t ctx1 = semGrpc.resolve t ctx2 →
      Io.cache_key semHttp semGql semGrpc (.grpc t gb dl d hk) ctx1 =
        Io.cache_key semHttp semGql semGrpc (.grpc t gb dl d hk) ctx2) ∧
    (∀ t gb dl il d hk ctx, semHttp.resolve t ctx = none →
      Io.cache_key semHttp semGql semGrpc (.http t gb dl il d hk) ctx = none) ∧
    (∀ t fn b dl d ctx, semGql.resolve t ctx = none →
      Io.cache_key semHttp semGql semGrpc (.graphQL t fn b dl d) ctx = none) ∧
    (∀ t gb dl d hk ctx, semGrpc.resolve t ctx = none →
      Io.cache_key semHttp semGql semGrpc (.grpc t gb dl d hk) ctx = none) := by
  refine ⟨fun t gb dl il d hk c1 c2 h => ?_, fun t fn b dl d c1 c2 h => ?_,
    fun t gb dl d hk c1 c2 h => ?_, fun t gb dl il d hk c h => ?_,
    fun t fn b dl d c h => ?_, fun t gb dl d hk c h => ?_⟩ <;>
    simp only [Io.cache_key, TemplateSem.template_cache_key, h]

/-- A concrete template semantics over `Nat` contexts for the C9
witness: a template resolves only under contexts `0` and `1` (to the
same resolved request), every template is cacheable, and the
fingerprint is the resolved request itself. -/
def semEx : TemplateSem Nat where
  resolve := fun t c => if c < 2 then some t else none
  cacheable := fun _ => true
  fingerprint := fun r => r

/-- C9 witness: under `semEx`, contexts 0 and 1 resolve identically and
give equal identifiers for each backend kind, and context 5 does not
resolve, giving absence. -/
theorem claim_C9_witness :
    (Io.cache_key semEx semEx semEx (.http 3 none none false false none) 0 =
      Io.cache_key semEx semEx semEx (.http 3 none none false false none) 1) ∧
    (Io.cache_key semEx semEx semEx (.graphQL 4 "f" false none false) 0 =
      Io.cache_key semEx semEx semEx (.graphQL 4 "f" false none false) 1) ∧
    (Io.cache_key semEx semEx semEx (.grpc 5 none none false none) 0 =
      Io.cache_key semEx semEx semEx (.grpc 5 none none false none) 1) ∧
    (Io.cache_key semEx semEx semEx (.http 3 none none false false none) 5 =
      none) ∧
    (Io.cache_key semEx semEx semEx (.graphQL 4 "f" false none false) 5 =
      none) ∧
    (Io.cache_key semEx semEx semEx (.grpc 5 none none false none) 5 =
      none) :=
  ⟨(claim_C9 semEx semEx semEx).1 3 none none false false none 0 1 (by decide),
   (claim_C9 semEx semEx semEx).2.1 4 "f" false none false 0 1 (by decide),
   (claim_C9 semEx semEx semEx).2.2.1 5 none none false none 0 1 (by decide),
   (claim_C9 semEx semEx semEx).2.2.2.1 3 none none false false none 5
     (by decide),
   (claim_C9 semEx semEx semEx).2.2.2.2.1 4 "f" false none false 5 (by decide),
   (claim_C9 semEx semEx semEx).2.2.2.2.2 5 none none false none 5
     (by decide)⟩

namespace IR

/-- Helper for C10: `modify_io` does not change the leaf-erased tree. -/
theorem modify_io_frame (f : Io → Io) :
    ∀ t : IR, stripLeaves (modify_io f t) = stripLeaves t := by
  refine ind_struct ?_ ?_ ?_ ?_ ?_ ?_ ?_ ?_ ?_ ?_ ?_ ?_
  · intro v; simp [modify_io]
  · intro leaf; simp [modify_io, stripLeaves]
  · intro c; simp [modify_io, stripLeaves]
  · intro child fs ih; simp [modify_io, stripLeaves, ih]
  · intro fs; simp [modify_io]
  · intro a child ih; simp [modify_io, stripLeaves, ih]
  · intro input mp ih; simp [modify_io, stripLeaves, ih]
  · intro a b iha ihb; simp [modify_io, stripLeaves, iha, ihb]
  · intro cs _; simp [modify_io]
  · intro d child ih; simp [modify_io, stripLeaves, ih]
  · intro es ih
    rw [modify_io_entity, stripLeaves_entity, stripLeaves_entity, List.map_map]
    congr 1
    refine List.map_congr_left fun kv hkv => ?_
    simp only [Function.comp_apply]
    rw [ih kv hkv]
  · intro s; simp [modify_io]

/-- C10: `modify_io` preserves the shape of the tree and every non-leaf
payload — after the call the leaf-erased tree (every `IO` payload
replaced by a fixed leaf, all field lists, auth values, key mappings,
discriminators, entity keys, SDL strings, dynamic values and `Cache`
windows kept) is unchanged, and a `Merge` node is returned with its
children entirely untouched. -/
theorem claim_C10 (f : Io → Io) :
    (∀ t, stripLeaves (modify_io f t) = stripLeaves t) ∧
    (∀ cs, modify_io f (.merge cs) = .merge cs) := by
  exact ⟨modify_io_frame f, fun cs => by simp [modify_io]⟩

end IR
